import Mathlib

/-!
Shallow embedding of the `wireguard-conf` crate: the IP-network primitives the
crate consumes (from the `ipnet` crate and `std::net` display code), the key
model with its base64 text codec, the `Interface`/`Peer` entity model, the
`Peer::to_interface` / `Interface::to_peer` derivation engine, the
`AmneziaSettings` validator, and the text renderer, together with theorems
settling the frozen claims about them.

Machine integers are modelled as `Nat` with explicit bounds where they matter
(IPv4 addresses live below `2 ^ 32`, IPv6 below `2 ^ 128`, key bytes below
`256`); fallible operations return `Option` or `Except`.
-/

set_option maxHeartbeats 1000000

namespace WgConf

/-- Decimal rendering of a natural number, as Rust's integer `Display`
produces it (no sign, no leading zeros, `"0"` for zero). `Nat.toDigits 10`
computes exactly that digit list. -/
def natDec (n : Nat) : List Char := Nat.toDigits 10 n

/-- Lowercase hex digit characters, as Rust's `{:x}` formatting uses. -/
def hexDigit : Nat → Char
  | 0 => '0'
  | 1 => '1'
  | 2 => '2'
  | 3 => '3'
  | 4 => '4'
  | 5 => '5'
  | 6 => '6'
  | 7 => '7'
  | 8 => '8'
  | 9 => '9'
  | 10 => 'a'
  | 11 => 'b'
  | 12 => 'c'
  | 13 => 'd'
  | 14 => 'e'
  | 15 => 'f'
  | _ + 16 => '0'

/-- Lowercase hex rendering of one 16-bit IPv6 segment (`{:x}` on a `u16`):
no leading zeros. Faithful on the segment domain `n < 65536`, which is all
`ipv6Segments` ever produces. -/
def hexSeg (n : Nat) : List Char :=
  if n < 16 then [hexDigit n]
  else if n < 256 then [hexDigit (n / 16), hexDigit (n % 16)]
  else if n < 4096 then [hexDigit (n / 256), hexDigit (n / 16 % 16), hexDigit (n % 16)]
  else [hexDigit (n / 4096 % 16), hexDigit (n / 256 % 16), hexDigit (n / 16 % 16), hexDigit (n % 16)]

/-- Join segment renderings with `':'` separators, as the `Ipv6Addr` display
writes a subslice of segments. -/
def joinColon : List (List Char) → List Char
  | [] => []
  | [s] => s
  | s :: rest => s ++ ':' :: joinColon rest

/-- Dotted-decimal display of an IPv4 address value (`std::net::Ipv4Addr`'s
`Display`): the four big-endian octets in decimal, joined by `'.'`. -/
def ipv4StrL (v : Nat) : List Char :=
  natDec (v / 16777216 % 256) ++ '.' :: natDec (v / 65536 % 256)
    ++ '.' :: natDec (v / 256 % 256) ++ '.' :: natDec (v % 256)

/-- The eight big-endian 16-bit segments of an IPv6 address value
(`Ipv6Addr::segments`). -/
def ipv6Segments (v : Nat) : List Nat :=
  [v / 2 ^ 112 % 65536, v / 2 ^ 96 % 65536, v / 2 ^ 80 % 65536, v / 2 ^ 64 % 65536,
   v / 2 ^ 48 % 65536, v / 2 ^ 32 % 65536, v / 2 ^ 16 % 65536, v % 65536]

/-- The fold inside `Ipv6Addr`'s `Display` that finds the zero-segment run to
compress: state is the longest `(start, len)` seen and the current run; a
fresh run records its start, and the longest is replaced only on strictly
greater length (so the earliest longest run wins). -/
def zeroRunFold : List Nat → Nat → Nat × Nat → Nat × Nat → Nat × Nat
  | [], _, longest, _ => longest
  | seg :: rest, i, longest, current =>
    if seg = 0 then
      let cur := if current.2 = 0 then (i, 1) else (current.1, current.2 + 1)
      let lng := if cur.2 > longest.2 then cur else longest
      zeroRunFold rest (i + 1) lng cur
    else
      zeroRunFold rest (i + 1) longest (0, 0)

/-- Start and length of the zero run `Ipv6Addr`'s `Display` compresses. -/
def longestZeroRun (segs : List Nat) : Nat × Nat := zeroRunFold segs 0 (0, 0) (0, 0)

/-- Display of an IPv6 address value, following `std::net::Ipv6Addr`'s
`Display`: `"::"` for the unspecified address, `"::1"` for loopback,
`"::ffff:a.b.c.d"` for an IPv4-mapped address, otherwise the eight hex
segments with the longest zero run (of length at least two) compressed
to `"::"`. -/
def ipv6StrL (v : Nat) : List Char :=
  if v = 0 then [':', ':']
  else if v = 1 then [':', ':', '1']
  else if v / 2 ^ 32 = 65535 then
    ':' :: ':' :: 'f' :: 'f' :: 'f' :: 'f' :: ':' :: ipv4StrL (v % 2 ^ 32)
  else
    let segs := ipv6Segments v
    let run := longestZeroRun segs
    if run.2 > 1 then
      joinColon ((segs.take run.1).map hexSeg) ++ ':' :: ':' :: joinColon ((segs.drop (run.1 + run.2)).map hexSeg)
    else joinColon (segs.map hexSeg)

/-- An IP address: the numeric value of a 32-bit v4 or 128-bit v6 address
(`std::net::IpAddr`). -/
inductive IpAddr where
  | v4 (val : Nat)
  | v6 (val : Nat)
deriving DecidableEq

/-- Numeric value of the address. -/
def IpAddr.val : IpAddr → Nat
  | .v4 v => v
  | .v6 v => v

/-- Rust `IpAddr::is_ipv4`. -/
def IpAddr.is_ipv4 : IpAddr → Bool
  | .v4 _ => true
  | .v6 _ => false

/-- Rust `IpAddr::is_ipv6`. -/
def IpAddr.is_ipv6 : IpAddr → Bool
  | .v4 _ => false
  | .v6 _ => true

/-- Bit width of the address family: 32 for v4, 128 for v6. -/
def IpAddr.width : IpAddr → Nat
  | .v4 _ => 32
  | .v6 _ => 128

/-- Display of an `IpAddr`. -/
def ipAddrStrL : IpAddr → List Char
  | .v4 v => ipv4StrL v
  | .v6 v => ipv6StrL v

/-- A CIDR network (`ipnet::IpNet`): a host address plus a prefix length.
`ipnet` keeps the host address as given (it is not truncated to the
network address). -/
structure IpNet where
  addr : IpAddr
  prefix_len : Nat
deriving DecidableEq

/-- The invariant every `ipnet::IpNet` built through its constructors has:
the prefix length is at most the family's bit width, and the address value
fits the family's width (it is a `u32`/`u128` in Rust). -/
def IpNet.Valid (n : IpNet) : Prop :=
  n.prefix_len ≤ n.addr.width ∧ n.addr.val < 2 ^ n.addr.width

instance (n : IpNet) : Decidable n.Valid := by
  unfold IpNet.Valid
  infer_instance

/-- Number of host bits of the network. -/
def IpNet.host_bits (n : IpNet) : Nat := n.addr.width - n.prefix_len

/-- Value of the network address (`IpNet::network`): the host address with
the host bits cleared. -/
def IpNet.network (n : IpNet) : Nat :=
  n.addr.val / 2 ^ n.host_bits * 2 ^ n.host_bits

/-- Value of the broadcast address (`IpNet::broadcast`): the host address
with the host bits set. -/
def IpNet.broadcast (n : IpNet) : Nat :=
  n.network + (2 ^ n.host_bits - 1)

/-- Rust `IpNet::contains(&IpNet)`: false across families; within a family,
`self.network() <= other.network() && other.broadcast() <= self.broadcast()`. -/
def IpNet.contains (a b : IpNet) : Bool :=
  match a.addr, b.addr with
  | .v4 _, .v4 _ => decide (a.network ≤ b.network ∧ b.broadcast ≤ a.broadcast)
  | .v6 _, .v6 _ => decide (a.network ≤ b.network ∧ b.broadcast ≤ a.broadcast)
  | _, _ => false

/-- Rust `IpNet::new(addr, prefix_len)`: errors (`PrefixLenError`) exactly
when the prefix length exceeds the family's bit width. -/
def IpNet.new? (addr : IpAddr) (p : Nat) : Option IpNet :=
  if p ≤ addr.width then some ⟨addr, p⟩ else none

/-- Display of an `IpNet` (`"{addr}/{prefix_len}"`). -/
def ipNetStrL (n : IpNet) : List Char :=
  ipAddrStrL n.addr ++ '/' :: natDec n.prefix_len

/-- Display of an `IpNet` as a `String`. -/
def ipNetStr (n : IpNet) : String := String.mk (ipNetStrL n)

/-- Rust `str::ends_with` on character lists. -/
def endsWithL (s pat : List Char) : Bool := pat.reverse.isPrefixOf s.reverse

/-- One step of `str::trim_end_matches`, with explicit fuel so the
definition is structural: while the pattern is a non-empty suffix, drop it
from the end. `s.length` fuel always suffices, since each step removes at
least one character. -/
def trimEndFuel : Nat → List Char → List Char → List Char
  | 0, s, _ => s
  | f + 1, s, pat =>
    if pat.isEmpty = false ∧ endsWithL s pat then
      trimEndFuel f (s.take (s.length - pat.length)) pat
    else s

/-- Rust `str::trim_end_matches`: removes every trailing repetition of the
pattern. -/
def trimEndMatchesL (s pat : List Char) : List Char := trimEndFuel s.length s pat

/-- The characters of the literal `"/32"`. -/
def slash32L : List Char := ['/', '3', '2']

/-- The characters of the literal `"/128"`. -/
def slash128L : List Char := ['/', '1', '2', '8']

/-- The per-address closure of the `Address = ...` renderer
(src/src/models/interface.rs lines 365-373): the address's display text,
with a trailing `"/32"` or `"/128"` trimmed. -/
def renderAddress (n : IpNet) : String :=
  let addr := ipNetStrL n
  if endsWithL addr slash32L then String.mk (trimEndMatchesL addr slash32L)
  else if endsWithL addr slash128L then String.mk (trimEndMatchesL addr slash128L)
  else String.mk addr

/-- The standard base64 alphabet, in index order. -/
def b64Chars : List Char :=
  "ABCDEFGHIJKLMNOPQRSTUVWXYZabcdefghijklmnopqrstuvwxyz0123456789+/".toList

/-- Character of one 6-bit value. -/
def b64Char (n : Nat) : Char := b64Chars.getD n 'A'

/-- Alphabet index of a character, `none` for a character outside the
standard alphabet (`'='` included). -/
def b64Index (c : Char) : Option Nat := b64Chars.findIdx? (fun d => d = c)

/-- Standard base64 encoding with mandatory padding
(`base64::prelude::BASE64_STANDARD.encode`), processing bytes in chunks of
three: a full chunk yields four alphabet characters, a two-byte tail three
characters and `'='`, a one-byte tail two characters and `"=="`. -/
def b64EncodeChunks : List Nat → List Char
  | [] => []
  | [a] => [b64Char (a / 4), b64Char (a % 4 * 16), '=', '=']
  | [a, b] => [b64Char (a / 4), b64Char (a % 4 * 16 + b / 16), b64Char (b % 16 * 4), '=']
  | a :: b :: c :: rest =>
    b64Char (a / 4) :: b64Char (a % 4 * 16 + b / 16) :: b64Char (b % 16 * 4 + c / 64)
      :: b64Char (c % 64) :: b64EncodeChunks rest

/-- Strict standard base64 decoding (`BASE64_STANDARD.decode`): the input
length must be a multiple of four, padding (`'='`) may only appear as the
last one or two characters of the final quad, and the unused low bits of the
final symbol must be zero (the engine's `decode_allow_trailing_bits` is
false, its padding mode canonical). `none` models a `DecodeError`. -/
def b64DecodeChunks : List Char → Option (List Nat)
  | [] => some []
  | c1 :: c2 :: c3 :: c4 :: rest =>
    match b64Index c1, b64Index c2 with
    | some v1, some v2 =>
      if c3 = '=' then
        if c4 = '=' ∧ rest = [] then
          if v2 % 16 = 0 then some [v1 * 4 + v2 / 16] else none
        else none
      else
        match b64Index c3 with
        | some v3 =>
          if c4 = '=' then
            if rest = [] then
              if v3 % 4 = 0 then some [v1 * 4 + v2 / 16, v2 % 16 * 16 + v3 / 4] else none
            else none
          else
            match b64Index c4 with
            | some v4 =>
              match b64DecodeChunks rest with
              | some bs => some ([v1 * 4 + v2 / 16, v2 % 16 * 16 + v3 / 4, v3 % 4 * 64 + v4] ++ bs)
              | none => none
            | none => none
        | none => none
    | _, _ => none
  | _ => none

/-- Base64 encoding of a byte list as a `String`. -/
def b64_encode (bs : List Nat) : String := String.mk (b64EncodeChunks bs)

/-- Base64 decoding of a `String`. -/
def b64_decode (s : String) : Option (List Nat) := b64DecodeChunks s.data

deriving instance DecidableEq for Except

/-- Valid raw key material: exactly 32 bytes. -/
def KeyBytes (bs : List Nat) : Prop := bs.length = 32 ∧ ∀ b ∈ bs, b < 256

/-- The crate's error type (src/src/utils/mod.rs). -/
inductive WireguardError where
  | invalidPrivateKey
  | invalidPublicKey
  | invalidPresharedKey
  | noPrivateKeyProvided
  | noAssignedIP
  | invalidAmneziaSetting (field : String)
deriving DecidableEq

/-- A private key: 32 raw bytes (the wrapped `x25519_dalek::StaticSecret`
stores and returns the bytes it was built from; equality is byte-wise). -/
structure PrivateKey where
  bytes : List Nat
deriving DecidableEq

/-- A public key: 32 raw bytes. -/
structure PublicKey where
  bytes : List Nat
deriving DecidableEq

/-- Modelled from the spec: a preshared key, "32 raw bytes, opaque symmetric
value with identical encode/wipe/equality rules" (spec section 3) — the
source file declaring `PresharedKey` is not among the repository files given
(src/src/utils/keys.rs ends with the `PublicKey` impls, while
utils/serde.rs and the tests use `PresharedKey`). -/
structure PresharedKey where
  bytes : List Nat
deriving DecidableEq

/-- Rust `TryFrom<&str> for PrivateKey` (src/src/utils/keys.rs lines 86-98):
base64-decode, then convert to a 32-byte array; either failure is
`InvalidPrivateKey`. -/
def PrivateKey.try_from (s : String) : Except WireguardError PrivateKey :=
  match b64_decode s with
  | none => .error .invalidPrivateKey
  | some bs => if bs.length = 32 then .ok ⟨bs⟩ else .error .invalidPrivateKey

/-- Rust `Display for PrivateKey`: the base64 encoding of the bytes. -/
def PrivateKey.encode (k : PrivateKey) : String := b64_encode k.bytes

/-- Rust `TryFrom<&str> for PublicKey` (src/src/utils/keys.rs lines 171-183). -/
def PublicKey.try_from (s : String) : Except WireguardError PublicKey :=
  match b64_decode s with
  | none => .error .invalidPublicKey
  | some bs => if bs.length = 32 then .ok ⟨bs⟩ else .error .invalidPublicKey

/-- Rust `Display for PublicKey`. -/
def PublicKey.encode (k : PublicKey) : String := b64_encode k.bytes

/-- Modelled from the spec: `TryFrom<&str> for PresharedKey`, with "identical
encode/wipe/equality rules" to the other key types (spec section 3) and error
`InvalidPresharedKey` (spec section 7); its source is not among the
repository files given. -/
def PresharedKey.try_from (s : String) : Except WireguardError PresharedKey :=
  match b64_decode s with
  | none => .error .invalidPresharedKey
  | some bs => if bs.length = 32 then .ok ⟨bs⟩ else .error .invalidPresharedKey

/-- Modelled from the spec: `Display for PresharedKey`, the base64 encoding
of the bytes. -/
def PresharedKey.encode (k : PresharedKey) : String := b64_encode k.bytes

/-- Modelled from the spec: `PublicKey::from(&PrivateKey)` wraps the furnished
elliptic-curve derive-public-from-private primitive (spec sections 1 and 4.1),
which is outside the model's scope; it is modelled as a total function of the
private key's bytes. No claim depends on its value. -/
def PublicKey.from_private (k : PrivateKey) : PublicKey := ⟨k.bytes⟩

/-- The routing-table selector (src/src/models/interface.rs lines 18-28). -/
inductive Table where
  | routingTable (n : Nat)
  | off
  | auto
deriving DecidableEq

/-- Rust `Display for Table`. -/
def renderTable : Table → String
  | .routingTable n => String.mk (natDec n)
  | .off => "off"
  | .auto => "auto"

/-- Modelled from the spec: the AmneziaWG obfuscation parameter block, "a
flat record of small integer fields (`jc`, `jmin`, `jmax`, `s1`, `s2`,
`h1`..`h4`)" (spec section 3) — its source file (utils/amnezia.rs, behind
the `amneziawg` feature) is not among the repository files given; the field
names also match their uses in src/tests/amneziawg.rs. -/
structure AmneziaSettings where
  jc : Nat
  jmin : Nat
  jmax : Nat
  s1 : Nat
  s2 : Nat
  h1 : Nat
  h2 : Nat
  h3 : Nat
  h4 : Nat
deriving DecidableEq

/-- Modelled from the spec: `AmneziaSettings::validate` (utils/amnezia.rs is
not among the repository files given). Check order and labels follow spec
section 4.4: `jc` in range else `"Jc"`; `jmin ≤ jmax` and `jmin` in range
else `"Jmin"`; `jmax` in range else `"Jmax"`; `s1` in range and
`s1 + 56 ≠ s2` (the fixed offset 56, from tests/amneziawg.rs lines 58-64)
else `"S1"`; `s2` in range else `"S2"`; `h1..h4` pairwise distinct else
`"H1/H2/H3/H4"`; only the first failing check is reported. The numeric
ranges come from the AmneziaWG documentation the crate links (`jc` in
1..=128, junk sizes below 1280 with the protocol's header offsets), and are
consistent with every test: 9999 is out of every range while 50, 100 and
156 are in range. -/
def AmneziaSettings.validate (a : AmneziaSettings) : Except WireguardError Unit :=
  if ¬ (1 ≤ a.jc ∧ a.jc ≤ 128) then .error (.invalidAmneziaSetting "Jc")
  else if ¬ (a.jmin ≤ a.jmax ∧ a.jmin < 1280) then .error (.invalidAmneziaSetting "Jmin")
  else if ¬ (a.jmax ≤ 1280) then .error (.invalidAmneziaSetting "Jmax")
  else if ¬ (a.s1 ≤ 1132 ∧ a.s1 + 56 ≠ a.s2) then .error (.invalidAmneziaSetting "S1")
  else if ¬ (a.s2 ≤ 1188) then .error (.invalidAmneziaSetting "S2")
  else if a.h1 = a.h2 ∨ a.h1 = a.h3 ∨ a.h1 = a.h4 ∨ a.h2 = a.h3 ∨ a.h2 = a.h4 ∨ a.h3 = a.h4 then
    .error (.invalidAmneziaSetting "H1/H2/H3/H4")
  else .ok ()

/-- Modelled from the spec: the obfuscation block's rendering (utils/amnezia.rs
is not among the repository files given): one `Name = value` line per field in
field order, without a trailing newline (the interface renderer's `writeln!`
adds it), per the render grammar sketch of spec section 4.5 and the AmneziaWG
configuration keys. No claim depends on its exact text. -/
def renderAmnezia (a : AmneziaSettings) : String :=
  "Jc = " ++ String.mk (natDec a.jc)
    ++ "\nJmin = " ++ String.mk (natDec a.jmin)
    ++ "\nJmax = " ++ String.mk (natDec a.jmax)
    ++ "\nS1 = " ++ String.mk (natDec a.s1)
    ++ "\nS2 = " ++ String.mk (natDec a.s2)
    ++ "\nH1 = " ++ String.mk (natDec a.h1)
    ++ "\nH2 = " ++ String.mk (natDec a.h2)
    ++ "\nH3 = " ++ String.mk (natDec a.h3)
    ++ "\nH4 = " ++ String.mk (natDec a.h4)

/-- The `[Peer]` entity (src/src/models/peer.rs lines 58-102), `amneziawg`
feature fields included. `key` is Rust's `Either<PrivateKey, PublicKey>`:
`Sum.inl` is `Either::Left` (private), `Sum.inr` is `Either::Right` (public). -/
structure Peer where
  endpoint : Option String
  allowed_ips : List IpNet
  persistent_keepalive : Nat
  key : PrivateKey ⊕ PublicKey
  preshared_key : Option PresharedKey
  amnezia_settings : Option AmneziaSettings
deriving DecidableEq

/-- The `[Interface]` entity (src/src/models/interface.rs lines 103-199),
`amneziawg` feature fields included. -/
structure Interface where
  address : List IpNet
  listen_port : Option Nat
  private_key : PrivateKey
  dns : List String
  endpoint : Option String
  table : Option Table
  mtu : Option Nat
  amnezia_settings : Option AmneziaSettings
  pre_up : List String
  pre_down : List String
  post_up : List String
  post_down : List String
  peers : List Peer
deriving DecidableEq

/-- Options for `Peer::to_interface` (src/src/models/peer.rs lines 18-24). -/
structure ToInterfaceOptions where
  default_gateway : Bool
  persistent_keepalive : Nat
deriving DecidableEq

/-- Rust `Interface::to_peer` (src/src/models/interface.rs lines 225-234).
The source's `Peer` literal sets `endpoint`, `allowed_ips`, `key`,
`preshared_key` and `persistent_keepalive` and omits the cfg(amneziawg)
`amnezia_settings` field, so that code cannot compile when the `amneziawg`
feature (whose fields this model carries) is enabled; that one field is
Modelled from the spec: the export "carries `amnezia_settings` through
unchanged" (spec section 4.3). -/
def Interface.to_peer (i : Interface) : Peer :=
  { endpoint := i.endpoint
    allowed_ips := i.address
    key := Sum.inl i.private_key
    preshared_key := none
    persistent_keepalive := 0
    amnezia_settings := i.amnezia_settings }

/-- The inner loop of `Peer::to_interface`'s `filter_map` closure
(src/src/models/peer.rs lines 167-175): for the first server address
containing the allowed network, return `IpNet::new(allowed.addr(),
server.prefix_len()).ok()`; with no containing server address, `none`. -/
def assign_ip (server_addrs : List IpNet) (allowed_ip : IpNet) : Option IpNet :=
  match server_addrs with
  | [] => none
  | sa :: rest =>
    if sa.contains allowed_ip then IpNet.new? allowed_ip.addr sa.prefix_len
    else assign_ip rest allowed_ip

/-- The `assigned_ips` list of `Peer::to_interface` (src/src/models/peer.rs
lines 164-176): `filter_map` of the loop above over the peer's allowed IPs. -/
def assigned_ips (allowed : List IpNet) (server_addrs : List IpNet) : List IpNet :=
  allowed.filterMap (assign_ip server_addrs)

/-- Definition following the spec's words (section 4.3 step 2), for
comparison with the source-derived `assigned_ips`: for every allowed
network, find the first reference address containing it and, if found, take
the network whose address is the allowed network's host address and whose
prefix length is the containing network's; drop the rest. -/
def assigned_ips_spec (allowed : List IpNet) (server_addrs : List IpNet) : List IpNet :=
  allowed.filterMap (fun ip =>
    (server_addrs.find? (fun sa => sa.contains ip)).map (fun sa => ⟨ip.addr, sa.prefix_len⟩))

/-- The default-gateway override list (src/src/models/peer.rs lines 205-217):
`0.0.0.0/0` if any assigned address is IPv4, then `::/0` if any is IPv6. -/
def gateway_ips (assigned : List IpNet) : List IpNet :=
  (if assigned.any (fun ip => ip.addr.is_ipv4) then [⟨IpAddr.v4 0, 0⟩] else [])
    ++ (if assigned.any (fun ip => ip.addr.is_ipv6) then [⟨IpAddr.v6 0, 0⟩] else [])

/-- Rust `Peer::to_interface` (src/src/models/peer.rs lines 155-225):
require a private key, compute the assigned addresses, fail when none,
build the client interface with the server re-exported as its single peer,
then apply the two option overrides in order. -/
def Peer.to_interface (p : Peer) (server_interface : Interface)
    (options : ToInterfaceOptions) : Except WireguardError Interface :=
  match p.key with
  | Sum.inr _ => .error .noPrivateKeyProvided
  | Sum.inl private_key =>
    let assigned := assigned_ips p.allowed_ips server_interface.address
    if assigned.isEmpty then .error .noAssignedIP
    else
      let client : Interface :=
        { endpoint := none
          address := assigned
          listen_port := none
          private_key := private_key
          dns := server_interface.dns
          table := none
          mtu := none
          amnezia_settings := p.amnezia_settings
          pre_up := []
          pre_down := []
          post_up := []
          post_down := []
          peers := [server_interface.to_peer] }
      let client2 :=
        if options.default_gateway then
          { client with
              peers := client.peers.modifyHead (fun q => { q with allowed_ips := gateway_ips assigned }) }
        else client
      let client3 :=
        if options.persistent_keepalive ≠ 0 then
          { client2 with
              peers := client2.peers.modifyHead
                (fun q => { q with persistent_keepalive := options.persistent_keepalive }) }
        else client2
      .ok client3

/-- The single peer of a successful `Peer::to_interface`: the server
exported via `to_peer`, with the two option overrides applied in order
(used to state what `to_interface` produces). -/
def client_peer (p : Peer) (server : Interface) (options : ToInterfaceOptions) : Peer :=
  let assigned := assigned_ips p.allowed_ips server.address
  let q0 := server.to_peer
  let q1 := if options.default_gateway then { q0 with allowed_ips := gateway_ips assigned } else q0
  if options.persistent_keepalive ≠ 0 then
    { q1 with persistent_keepalive := options.persistent_keepalive }
  else q1

/-- The interface a successful `Peer::to_interface` returns (used to state
what `to_interface` produces). -/
def client_interface (p : Peer) (server : Interface) (options : ToInterfaceOptions)
    (pk : PrivateKey) : Interface :=
  { endpoint := none
    address := assigned_ips p.allowed_ips server.address
    listen_port := none
    private_key := pk
    dns := server.dns
    table := none
    mtu := none
    amnezia_settings := p.amnezia_settings
    pre_up := []
    pre_down := []
    post_up := []
    post_down := []
    peers := [client_peer p server options] }

/-- Rust `Display for Peer` (src/src/models/peer.rs lines 234-263): the
`[Peer]` header, the optional endpoint, the allowed IPs joined by a bare
comma (no suffix stripping here), the public key (derived from the private
key when that side of the `Either` is held), the optional preshared key and
the keepalive if non-zero; every line newline-terminated. -/
def renderPeer (p : Peer) : String :=
  "[Peer]\n"
    ++ (match p.endpoint with
        | some e => "Endpoint = " ++ e ++ "\n"
        | none => "")
    ++ "AllowedIPs = " ++ String.intercalate "," (p.allowed_ips.map ipNetStr) ++ "\n"
    ++ "PublicKey = "
    ++ (match p.key with
        | Sum.inl k => (PublicKey.from_private k).encode
        | Sum.inr k => k.encode)
    ++ "\n"
    ++ (match p.preshared_key with
        | some k => "PresharedKey = " ++ k.encode ++ "\n"
        | none => "")
    ++ (if p.persistent_keepalive ≠ 0 then
          "PersistentKeepalive = " ++ String.mk (natDec p.persistent_keepalive) ++ "\n"
        else "")

/-- The `Address = ...` line of the interface renderer
(src/src/models/interface.rs lines 359-375): per-address rendering with
suffix stripping, joined by a bare comma. -/
def address_line (addrs : List IpNet) : String :=
  "Address = " ++ String.intercalate "," (addrs.map renderAddress) ++ "\n"

/-- A hook block of the interface renderer (lines 390-413): nothing when
the list is empty, otherwise a blank line then one line per command. -/
def hookLines (label : String) (cmds : List String) : String :=
  if cmds = [] then ""
  else "\n" ++ String.join (cmds.map (fun c => label ++ c ++ "\n"))

/-- Rust `Display for Interface` (src/src/models/interface.rs lines 353-428):
the `[Interface]` header, the `# Name` comment when an endpoint is set, the
address line, the optional `ListenPort`, the `PrivateKey` line, `DNS` when
non-empty, optional `Table` and `MTU`, the four hook blocks, the obfuscation
block when set, and one blank-line-prefixed block per peer (a `writeln!` of
the peer's own rendering appends a newline after it). -/
def renderInterface (i : Interface) : String :=
  "[Interface]\n"
    ++ (match i.endpoint with
        | some e => "# Name = " ++ e ++ "\n"
        | none => "")
    ++ address_line i.address
    ++ (match i.listen_port with
        | some p => "ListenPort = " ++ String.mk (natDec p) ++ "\n"
        | none => "")
    ++ "PrivateKey = " ++ i.private_key.encode ++ "\n"
    ++ (if i.dns = [] then "" else "DNS = " ++ String.intercalate "," i.dns ++ "\n")
    ++ (match i.table with
        | some t => "Table = " ++ renderTable t ++ "\n"
        | none => "")
    ++ (match i.mtu with
        | some m => "MTU = " ++ String.mk (natDec m) ++ "\n"
        | none => "")
    ++ hookLines "PreUp = " i.pre_up
    ++ hookLines "PreDown = " i.pre_down
    ++ hookLines "PostUp = " i.post_up
    ++ hookLines "PostDown = " i.post_down
    ++ (match i.amnezia_settings with
        | some a => "\n" ++ renderAmnezia a ++ "\n"
        | none => "")
    ++ String.join (i.peers.map (fun q => "\n" ++ renderPeer q ++ "\n"))

/-! Concrete example values, used by witnesses and counterexamples. -/

/-- The bytes `0x00 .. 0x1f`: valid key material. -/
def cBytes : List Nat := List.range 32

/-- The bytes `0x20 .. 0x3f`: valid key material. -/
def cBytes2 : List Nat := (List.range 32).map (fun i => i + 32)

/-- A concrete private key. -/
def cKey : PrivateKey := ⟨cBytes⟩

/-- A second concrete private key. -/
def cKey2 : PrivateKey := ⟨cBytes2⟩

/-- A server interface holding `10.0.0.1/24` and `cKey`, all else unset. -/
def cServer : Interface :=
  { address := [⟨IpAddr.v4 167772161, 24⟩]
    listen_port := none
    private_key := cKey
    dns := []
    endpoint := none
    table := none
    mtu := none
    amnezia_settings := none
    pre_up := []
    pre_down := []
    post_up := []
    post_down := []
    peers := [] }

/-- A client peer holding `10.0.0.2/32` and the private key `cKey2`. -/
def cPeer : Peer :=
  { endpoint := none
    allowed_ips := [⟨IpAddr.v4 167772162, 32⟩]
    persistent_keepalive := 0
    key := Sum.inl cKey2
    preshared_key := none
    amnezia_settings := none }

/-- `cPeer` holding only a public key. -/
def cPeerPub : Peer := { cPeer with key := Sum.inr ⟨cBytes⟩ }

/-- A dual-family server: `10.0.0.1/24` and `fd00::1/48`. -/
def cServerDual : Interface :=
  { cServer with address := [⟨IpAddr.v4 167772161, 24⟩, ⟨IpAddr.v6 (0xfd00 * 2 ^ 112 + 1), 48⟩] }

/-- A dual-family client peer: `10.0.0.2/32` and `fd00::2/128`. -/
def cPeerDual : Peer :=
  { cPeer with
      allowed_ips := [⟨IpAddr.v4 167772162, 32⟩, ⟨IpAddr.v6 (0xfd00 * 2 ^ 112 + 2), 128⟩] }

/-- Default options. -/
def cOpts0 : ToInterfaceOptions := ⟨false, 0⟩

/-- Options with only a keepalive of 25. -/
def cOpts25 : ToInterfaceOptions := ⟨false, 25⟩

/-- Options with the default gateway set and a keepalive of 7. -/
def cOptsGw7 : ToInterfaceOptions := ⟨true, 7⟩

/-- The interface `cPeer.to_interface cServer cOpts0` returns. -/
def cClient0 : Interface := client_interface cPeer cServer cOpts0 cKey2

/-- The interface `cPeerDual.to_interface cServerDual cOptsGw7` returns. -/
def cClientGw7 : Interface := client_interface cPeerDual cServerDual cOptsGw7 cKey2

/-- Settings whose `jc` is out of range and whose `jmin`/`jmax` are the
claim's `100`/`50`. -/
def cAmneziaJc : AmneziaSettings := ⟨9999, 100, 50, 10, 100, 1, 2, 3, 4⟩

/-- Settings valid except `jmin = 100 > 50 = jmax`. -/
def cAmneziaJmin : AmneziaSettings := ⟨10, 100, 50, 10, 100, 1, 2, 3, 4⟩

/-- Settings valid except `h1 = h2` (with `h3`, `h4` distinct). -/
def cAmneziaH : AmneziaSettings := ⟨10, 5, 50, 10, 100, 7, 7, 3, 4⟩

/-- The ten decimal digit characters. -/
def decDigits : List Char := "0123456789".toList

/-- The sixteen lowercase hex digit characters. -/
def hexDigitsL : List Char := "0123456789abcdef".toList

/-! Helper lemmas about the derivation engine. -/

theorem contains_same_width {a b : IpNet} (h : a.contains b = true) :
    a.addr.width = b.addr.width := by
  rcases a with ⟨aa, ap⟩
  rcases b with ⟨ba, bp⟩
  rcases aa with v | v <;> rcases ba with w | w <;> simp_all [IpNet.contains, IpAddr.width]

theorem assign_ip_eq_spec (server_addrs : List IpNet) (ip : IpNet)
    (hv : ∀ n ∈ server_addrs, n.Valid) :
    assign_ip server_addrs ip =
      (server_addrs.find? (fun sa => sa.contains ip)).map
        (fun sa => (⟨ip.addr, sa.prefix_len⟩ : IpNet)) := by
  induction server_addrs with
  | nil => rfl
  | cons sa rest ih =>
    by_cases hc : sa.contains ip = true
    · have hw := contains_same_width hc
      have hp : sa.prefix_len ≤ ip.addr.width := by
        have h1 := (hv sa (List.mem_cons_self sa rest)).1
        omega
      simp [assign_ip, List.find?_cons_of_pos, hc, IpNet.new?, hp]
    · have hrest : ∀ n ∈ rest, n.Valid := fun n hn => hv n (List.mem_cons_of_mem _ hn)
      simp [assign_ip, List.find?_cons_of_neg, hc, ih hrest]

theorem assigned_ips_eq_spec (allowed server_addrs : List IpNet)
    (hv : ∀ n ∈ server_addrs, n.Valid) :
    assigned_ips allowed server_addrs = assigned_ips_spec allowed server_addrs := by
  unfold assigned_ips assigned_ips_spec
  congr 1
  funext ip
  exact assign_ip_eq_spec server_addrs ip hv

theorem to_interface_eq (p : Peer) (s : Interface) (o : ToInterfaceOptions) :
    p.to_interface s o =
      match p.key with
      | Sum.inr _ => Except.error WireguardError.noPrivateKeyProvided
      | Sum.inl pk =>
        if assigned_ips p.allowed_ips s.address = [] then
          Except.error WireguardError.noAssignedIP
        else Except.ok (client_interface p s o pk) := by
  unfold Peer.to_interface
  rcases hk : p.key with pk | pk <;> dsimp only
  · by_cases hE : assigned_ips p.allowed_ips s.address = []
    · simp [hE]
    · rw [if_neg hE]
      rw [if_neg (by simp [List.isEmpty_iff, hE])]
      by_cases hg : o.default_gateway <;> by_cases hka : o.persistent_keepalive = 0 <;>
        simp [client_interface, client_peer, hg, hka, List.modifyHead]

/-- C1: for every peer holding a private key and every reference interface
(whose addresses carry `ipnet`'s constructor invariant), the assigned-address
list `Peer::to_interface` computes equals, network for network and in order,
the list the spec describes: for each allowed network the first containing
reference address's prefix length paired with the allowed network's host
address, networks contained by no reference address silently dropped; and a
non-empty spec list means the call succeeds (absence of some matches alone is
not an error). -/
theorem to_interface_assigned_first_containing (p : Peer) (s : Interface)
    (o : ToInterfaceOptions) (k : PrivateKey)
    (hv : ∀ n ∈ s.address, n.Valid) (hk : p.key = Sum.inl k) :
    assigned_ips p.allowed_ips s.address = assigned_ips_spec p.allowed_ips s.address ∧
    (∀ i : Interface, p.to_interface s o = .ok i →
        i.address = assigned_ips_spec p.allowed_ips s.address) ∧
    (assigned_ips_spec p.allowed_ips s.address ≠ [] →
        ∃ i, p.to_interface s o = .ok i) := by
  have hmain := assigned_ips_eq_spec p.allowed_ips s.address hv
  refine ⟨hmain, ?_, ?_⟩
  · intro i hi
    rw [to_interface_eq, hk] at hi
    dsimp only at hi
    by_cases hE : assigned_ips p.allowed_ips s.address = []
    · rw [if_pos hE] at hi
      simp at hi
    · rw [if_neg hE] at hi
      injection hi with hi2
      subst hi2
      simpa [client_interface] using hmain
  · intro hne
    refine ⟨client_interface p s o k, ?_⟩
    rw [to_interface_eq, hk]
    dsimp only
    rw [if_neg (by rw [hmain]; exact hne)]

/-- Witness for C1 at the dual-family example of the repository's tests. -/
theorem to_interface_assigned_first_containing_witness :
    (∀ n ∈ cServerDual.address, n.Valid) ∧ cPeerDual.key = Sum.inl cKey2 ∧
    (assigned_ips cPeerDual.allowed_ips cServerDual.address
        = assigned_ips_spec cPeerDual.allowed_ips cServerDual.address ∧
      (∀ i : Interface, cPeerDual.to_interface cServerDual cOpts0 = .ok i →
          i.address = assigned_ips_spec cPeerDual.allowed_ips cServerDual.address) ∧
      (assigned_ips_spec cPeerDual.allowed_ips cServerDual.address ≠ [] →
          ∃ i, cPeerDual.to_interface cServerDual cOpts0 = .ok i)) :=
  ⟨by decide, by decide,
    to_interface_assigned_first_containing cPeerDual cServerDual cOpts0 cKey2
      (by decide) (by decide)⟩

/-- C2: `Peer::to_interface` fails with `NoPrivateKeyProvided` exactly when
the peer's key is the public variant (checked first, whatever the
addresses), fails with `NoAssignedIP` exactly when the key is private and
the assigned list is empty, and succeeds (returning a full interface, no
other error, no partial outcome) exactly otherwise. -/
theorem to_interface_error_characterization (p : Peer) (s : Interface)
    (o : ToInterfaceOptions) :
    (∀ e : WireguardError,
        p.to_interface s o = .error e ↔
          (e = .noPrivateKeyProvided ∧ p.key.isRight = true) ∨
          (e = .noAssignedIP ∧ p.key.isLeft = true ∧
            assigned_ips p.allowed_ips s.address = [])) ∧
    ((∃ i, p.to_interface s o = .ok i) ↔
        p.key.isLeft = true ∧ assigned_ips p.allowed_ips s.address ≠ []) := by
  rcases hk : p.key with pk | pk <;>
    by_cases hE : assigned_ips p.allowed_ips s.address = [] <;>
      constructor <;>
        simp [to_interface_eq, hk, hE, eq_comm]

/-- C3 counterexample: with options whose persistent keepalive is 25, the
call succeeds but the resulting interface's peers list is not
`[server.to_peer]` (the keepalive was overwritten), refuting the claim's
"for every successful call" reading of the peers clause. -/
theorem to_interface_peers_differ_from_to_peer :
    (cPeer.to_interface cServer cOpts25).toOption.isSome = true ∧
    (cPeer.to_interface cServer cOpts25).toOption.map Interface.peers ≠
      some [cServer.to_peer] := by
  decide

/-- C3 (amended): for every successful `Peer::to_interface` call the result
has address the assigned list, the peer's private key, the reference's dns,
endpoint/listen_port/table/mtu unset, the four hook lists empty, the peer's
own amnezia settings, and exactly one peer — the reference exported via
`to_peer`, whose identity fields (key, endpoint, preshared key, amnezia
settings) match `to_peer` always, and which equals `to_peer`'s output
exactly whenever the options are left at their defaults (the options may
overwrite its allowed_ips and persistent_keepalive, claim C4). -/
theorem to_interface_success_fields (p : Peer) (s : Interface)
    (o : ToInterfaceOptions) (i : Interface) (h : p.to_interface s o = .ok i) :
    i.address = assigned_ips p.allowed_ips s.address ∧
    p.key = Sum.inl i.private_key ∧
    i.dns = s.dns ∧
    i.endpoint = none ∧
    i.listen_port = none ∧
    i.table = none ∧
    i.mtu = none ∧
    i.pre_up = [] ∧
    i.pre_down = [] ∧
    i.post_up = [] ∧
    i.post_down = [] ∧
    i.amnezia_settings = p.amnezia_settings ∧
    (∃ q : Peer, i.peers = [q] ∧ q.key = s.to_peer.key ∧
        q.endpoint = s.to_peer.endpoint ∧
        q.preshared_key = s.to_peer.preshared_key ∧
        q.amnezia_settings = s.to_peer.amnezia_settings) ∧
    (o.default_gateway = false → o.persistent_keepalive = 0 →
        i.peers = [s.to_peer]) := by
  rw [to_interface_eq] at h
  rcases hk : p.key with pk | pk <;> rw [hk] at h <;> dsimp only at h
  · by_cases hE : assigned_ips p.allowed_ips s.address = []
    · rw [if_pos hE] at h
      simp at h
    · rw [if_neg hE] at h
      injection h with h2
      subst h2
      refine ⟨rfl, rfl, rfl, rfl, rfl, rfl, rfl, rfl, rfl, rfl, rfl, rfl,
        ⟨client_peer p s o, rfl, ?_, ?_, ?_, ?_⟩, ?_⟩
      · simp only [client_peer]
        split_ifs <;> rfl
      · simp only [client_peer]
        split_ifs <;> rfl
      · simp only [client_peer]
        split_ifs <;> rfl
      · simp only [client_peer]
        split_ifs <;> rfl
      · intro hg hka
        simp [client_interface, client_peer, hg, hka]
  · simp at h

/-- Witness for C3 at the default-options example. -/
theorem to_interface_success_fields_witness :
    cPeer.to_interface cServer cOpts0 = .ok cClient0 ∧
    cClient0.address = assigned_ips cPeer.allowed_ips cServer.address :=
  ⟨by decide, (to_interface_success_fields cPeer cServer cOpts0 cClient0 (by decide)).1⟩

/-- C4: on success with `default_gateway` set, the single peer's allowed
IPs become `0.0.0.0/0` exactly when some assigned address is IPv4 followed
by `::/0` exactly when some is IPv6 (IPv4 first); a non-zero options
keepalive overwrites the peer's keepalive, and a zero one leaves it at 0. -/
theorem to_interface_options_effects (p : Peer) (s : Interface)
    (o : ToInterfaceOptions) (i : Interface) (h : p.to_interface s o = .ok i) :
    (o.default_gateway = true →
      ∃ q : Peer, i.peers = [q] ∧
        q.allowed_ips =
          (if (assigned_ips p.allowed_ips s.address).any (fun ip => ip.addr.is_ipv4) then
            [⟨IpAddr.v4 0, 0⟩] else [])
          ++ (if (assigned_ips p.allowed_ips s.address).any (fun ip => ip.addr.is_ipv6) then
            [⟨IpAddr.v6 0, 0⟩] else [])) ∧
    (o.persistent_keepalive ≠ 0 →
      ∃ q : Peer, i.peers = [q] ∧ q.persistent_keepalive = o.persistent_keepalive) ∧
    (o.persistent_keepalive = 0 →
      ∃ q : Peer, i.peers = [q] ∧ q.persistent_keepalive = 0) := by
  rw [to_interface_eq] at h
  rcases hk : p.key with pk | pk <;> rw [hk] at h <;> dsimp only at h
  · by_cases hE : assigned_ips p.allowed_ips s.address = []
    · rw [if_pos hE] at h
      simp at h
    · rw [if_neg hE] at h
      injection h with h2
      subst h2
      refine ⟨?_, ?_, ?_⟩ <;> intro h1
      · refine ⟨client_peer p s o, rfl, ?_⟩
        simp only [client_peer, h1, if_true, gateway_ips]
        split_ifs <;> rfl
      · refine ⟨client_peer p s o, rfl, ?_⟩
        simp [client_peer, h1]
      · refine ⟨client_peer p s o, rfl, ?_⟩
        simp only [client_peer, h1]
        simp [Interface.to_peer]
        split_ifs <;> rfl
  · simp at h

/-- Witness for C4 at the dual-family, gateway-and-keepalive example. -/
theorem to_interface_options_effects_witness :
    cPeerDual.to_interface cServerDual cOptsGw7 = .ok cClientGw7 ∧
    cOptsGw7.persistent_keepalive ≠ 0 ∧
    (∃ q : Peer, cClientGw7.peers = [q] ∧
        q.persistent_keepalive = cOptsGw7.persistent_keepalive) :=
  ⟨by decide, by decide,
    (to_interface_options_effects cPeerDual cServerDual cOptsGw7 cClientGw7
        (by decide)).2.1 (by decide)⟩

/-! Helper lemmas about characters of the rendered address texts. -/

theorem append_ne_slash {l1 l2 : List Char} (h1 : ∀ c ∈ l1, c ≠ '/')
    (h2 : ∀ c ∈ l2, c ≠ '/') : ∀ c ∈ l1 ++ l2, c ≠ '/' := by
  intro c hc
  rcases List.mem_append.mp hc with h | h
  exacts [h1 c h, h2 c h]

theorem cons_ne_slash {a : Char} {l : List Char} (ha : a ≠ '/')
    (h : ∀ c ∈ l, c ≠ '/') : ∀ c ∈ a :: l, c ≠ '/' := by
  intro c hc
  rcases List.mem_cons.mp hc with rfl | h2
  exacts [ha, h c h2]

theorem digitChar_mem_decDigits : ∀ m < 10, Nat.digitChar m ∈ decDigits := by decide

theorem toDigitsCore_mem (f : Nat) : ∀ (n : Nat) (ds : List Char),
    (∀ c ∈ ds, c ∈ decDigits) → ∀ c ∈ Nat.toDigitsCore 10 f n ds, c ∈ decDigits := by
  induction f with
  | zero => intro n ds hds; simpa [Nat.toDigitsCore] using hds
  | succ f ih =>
    intro n ds hds c hc
    rw [Nat.toDigitsCore] at hc
    have hd : Nat.digitChar (n % 10) ∈ decDigits :=
      digitChar_mem_decDigits _ (Nat.mod_lt _ (by omega))
    have hcons : ∀ x ∈ Nat.digitChar (n % 10) :: ds, x ∈ decDigits := by
      intro x hx
      rcases List.mem_cons.mp hx with rfl | hx2
      exacts [hd, hds x hx2]
    by_cases h0 : n / 10 = 0
    · rw [if_pos h0] at hc
      exact hcons c hc
    · rw [if_neg h0] at hc
      exact ih (n / 10) _ hcons c hc

theorem natDec_mem (n : Nat) : ∀ c ∈ natDec n, c ∈ decDigits :=
  toDigitsCore_mem (n + 1) n [] (by simp)

theorem natDec_ne_slash (n : Nat) : ∀ c ∈ natDec n, c ≠ '/' := by
  intro c hc he
  subst he
  exact absurd (natDec_mem n _ hc) (by decide)

theorem hexDigit_mem (m : Nat) : hexDigit m ∈ hexDigitsL := by
  unfold hexDigit
  split <;> decide

theorem hex_ne_slash {c : Char} (h : c ∈ hexDigitsL) : c ≠ '/' := by
  intro he
  subst he
  exact absurd h (by decide)

theorem hexSeg_mem (n : Nat) : ∀ c ∈ hexSeg n, c ∈ hexDigitsL := by
  unfold hexSeg
  split_ifs <;> simp [hexDigit_mem]

theorem joinColon_mem (ls : List (List Char))
    (hls : ∀ l ∈ ls, ∀ c ∈ l, c ∈ hexDigitsL) :
    ∀ c ∈ joinColon ls, c = ':' ∨ c ∈ hexDigitsL := by
  induction ls with
  | nil => simp [joinColon]
  | cons x rest ih =>
    cases rest with
    | nil =>
      intro c hc
      exact Or.inr (hls x (by simp) c (by simpa [joinColon] using hc))
    | cons y rest2 =>
      intro c hc
      have hstep : joinColon (x :: y :: rest2) = x ++ ':' :: joinColon (y :: rest2) := rfl
      rw [hstep] at hc
      rcases List.mem_append.mp hc with h | h
      · exact Or.inr (hls x (by simp) c h)
      · rcases List.mem_cons.mp h with rfl | h2
        · exact Or.inl rfl
        · exact ih (fun l hl => hls l (List.mem_cons_of_mem _ hl)) c h2

theorem joinColon_ne_slash (ls : List (List Char))
    (hls : ∀ l ∈ ls, ∀ c ∈ l, c ∈ hexDigitsL) : ∀ c ∈ joinColon ls, c ≠ '/' := by
  intro c hc
  rcases joinColon_mem ls hls c hc with rfl | h
  · decide
  · exact hex_ne_slash h

theorem map_hexSeg_mem (segs : List Nat) :
    ∀ l ∈ segs.map hexSeg, ∀ c ∈ l, c ∈ hexDigitsL := by
  intro l hl
  rcases List.mem_map.mp hl with ⟨s, _, rfl⟩
  exact hexSeg_mem s

theorem ipv4StrL_ne_slash (v : Nat) : ∀ c ∈ ipv4StrL v, c ≠ '/' := by
  refine append_ne_slash
    (append_ne_slash
      (append_ne_slash (natDec_ne_slash _)
        (cons_ne_slash (by decide) (natDec_ne_slash _)))
      (cons_ne_slash (by decide) (natDec_ne_slash _)))
    (cons_ne_slash (by decide) (natDec_ne_slash _))

theorem ipv6StrL_ne_slash (v : Nat) : ∀ c ∈ ipv6StrL v, c ≠ '/' := by
  unfold ipv6StrL
  split_ifs with h0 h1 hmap
  · decide
  · decide
  · exact cons_ne_slash (by decide) (cons_ne_slash (by decide) (cons_ne_slash (by decide)
      (cons_ne_slash (by decide) (cons_ne_slash (by decide) (cons_ne_slash (by decide)
        (cons_ne_slash (by decide) (ipv4StrL_ne_slash _)))))))
  · dsimp only
    split_ifs with hrun
    · exact append_ne_slash
        (joinColon_ne_slash _ (map_hexSeg_mem _))
        (cons_ne_slash (by decide) (cons_ne_slash (by decide)
          (joinColon_ne_slash _ (map_hexSeg_mem _))))
    · exact joinColon_ne_slash _ (map_hexSeg_mem _)

/-! Helper lemmas about suffix testing and trimming. -/

theorem isPrefixOf_append_self (l t : List Char) : l.isPrefixOf (l ++ t) = true := by
  induction l with
  | nil => simp
  | cons a as ih => simp [ih]

theorem prefix_of_isPrefixOf {l t : List Char} (h : l.isPrefixOf t = true) : l <+: t := by
  induction l generalizing t with
  | nil => exact List.nil_prefix
  | cons a as ih =>
    cases t with
    | nil => simp at h
    | cons b bs =>
      rw [List.isPrefixOf_cons₂] at h
      simp only [Bool.and_eq_true, beq_iff_eq] at h
      obtain ⟨h1, h2⟩ := h
      subst h1
      exact List.cons_prefix_cons.mpr ⟨rfl, ih h2⟩

theorem endsWithL_append (s pat : List Char) : endsWithL (s ++ pat) pat = true := by
  unfold endsWithL
  rw [List.reverse_append]
  exact isPrefixOf_append_self _ _

theorem endsWith_implies_suffix {s pat : List Char} (h : endsWithL s pat = true) :
    pat <:+ s := by
  unfold endsWithL at h
  exact List.reverse_prefix.mp (prefix_of_isPrefixOf h)

theorem not_endsWith_of_no_slash {s : List Char} (hs : ∀ c ∈ s, c ≠ '/')
    (t : List Char) : endsWithL s ('/' :: t) = false := by
  cases hb : endsWithL s ('/' :: t) with
  | false => rfl
  | true =>
    obtain ⟨u, hu⟩ := endsWith_implies_suffix hb
    exact absurd rfl (hs '/' (by rw [← hu]; simp))

theorem trimEndFuel_of_not_ends {f : Nat} {s pat : List Char}
    (h : ¬ (pat.isEmpty = false ∧ endsWithL s pat = true)) : trimEndFuel f s pat = s := by
  cases f with
  | zero => rfl
  | succ f => rw [trimEndFuel, if_neg h]

theorem trimEndFuel_step {f : Nat} {s pat : List Char}
    (h : pat.isEmpty = false ∧ endsWithL s pat = true) :
    trimEndFuel (f + 1) s pat = trimEndFuel f (s.take (s.length - pat.length)) pat := by
  simp [trimEndFuel, h]

theorem trimEnd_append_no_slash {s : List Char} (t : List Char)
    (hs : ∀ c ∈ s, c ≠ '/') :
    trimEndMatchesL (s ++ '/' :: t) ('/' :: t) = s := by
  unfold trimEndMatchesL
  rw [show (s ++ '/' :: t).length = s.length + t.length + 1 from by simp; omega]
  rw [trimEndFuel_step ⟨(show ('/' :: t).isEmpty = false from rfl), endsWithL_append s ('/' :: t)⟩]
  rw [show (s ++ '/' :: t).length - ('/' :: t).length = s.length from by simp]
  rw [List.take_left s ('/' :: t)]
  exact trimEndFuel_of_not_ends (by
    rw [not_endsWith_of_no_slash hs t]
    simp)

/-- C10: the renderer's suffix stripping tests the text, not the family:
every IPv6 network with prefix length exactly 32 renders in the Address
line as the bare address (the textual `"/32"` suffix stripped), not
unchanged. -/
theorem render_v6_prefix32_stripped (a : Nat) :
    renderAddress ⟨IpAddr.v6 a, 32⟩ = String.mk (ipv6StrL a) ∧
    renderAddress ⟨IpAddr.v6 a, 32⟩ ≠ ipNetStr ⟨IpAddr.v6 a, 32⟩ := by
  have hdig : natDec 32 = ['3', '2'] := by decide
  have hstr : ipNetStrL ⟨IpAddr.v6 a, 32⟩ = ipv6StrL a ++ '/' :: ['3', '2'] := by
    simp [ipNetStrL, ipAddrStrL, hdig]
  have hends : endsWithL (ipNetStrL ⟨IpAddr.v6 a, 32⟩) slash32L = true := by
    rw [hstr]
    exact endsWithL_append _ _
  have htrim : trimEndMatchesL (ipNetStrL ⟨IpAddr.v6 a, 32⟩) slash32L = ipv6StrL a := by
    rw [hstr]
    exact trimEnd_append_no_slash ['3', '2'] (ipv6StrL_ne_slash a)
  have hmain : renderAddress ⟨IpAddr.v6 a, 32⟩ = String.mk (ipv6StrL a) := by
    unfold renderAddress
    rw [if_pos hends, htrim]
  refine ⟨hmain, ?_⟩
  rw [hmain]
  unfold ipNetStr
  intro habs
  have hdata : ipv6StrL a = ipNetStrL ⟨IpAddr.v6 a, 32⟩ := congrArg String.data habs
  have := congrArg List.length hdata
  rw [hstr] at this
  simp at this

/-- C8: in the rendered Address line, suffix stripping is applied
independently to each address, testing the text: `1.2.3.4/32` renders as
`1.2.3.4`, `fd00::1/128` as `fd00::1`, `1.2.3.4/16` unchanged, any address
whose text ends in neither `"/32"` nor `"/128"` renders unchanged, and the
line joins the per-address renderings with a bare comma. -/
theorem render_address_suffix_stripping :
    renderAddress ⟨IpAddr.v4 16909060, 32⟩ = "1.2.3.4" ∧
    renderAddress ⟨IpAddr.v6 (0xfd00 * 2 ^ 112 + 1), 128⟩ = "fd00::1" ∧
    renderAddress ⟨IpAddr.v4 16909060, 16⟩ = "1.2.3.4/16" ∧
    (∀ n : IpNet, endsWithL (ipNetStrL n) slash32L = false →
        endsWithL (ipNetStrL n) slash128L = false →
        renderAddress n = String.mk (ipNetStrL n)) ∧
    (∀ addrs : List IpNet,
        address_line addrs =
          "Address = " ++ String.intercalate "," (addrs.map renderAddress) ++ "\n") := by
  refine ⟨by decide, by decide, by decide, ?_, fun _ => rfl⟩
  intro n h32 h128
  unfold renderAddress
  rw [if_neg (by rw [h32]; simp), if_neg (by rw [h128]; simp)]

/-- Witness for C8's unchanged case at `10.0.0.1/24`. -/
theorem render_address_suffix_stripping_witness :
    endsWithL (ipNetStrL ⟨IpAddr.v4 167772161, 24⟩) slash32L = false ∧
    endsWithL (ipNetStrL ⟨IpAddr.v4 167772161, 24⟩) slash128L = false ∧
    renderAddress ⟨IpAddr.v4 167772161, 24⟩ = String.mk (ipNetStrL ⟨IpAddr.v4 167772161, 24⟩) :=
  ⟨by decide, by decide,
    render_address_suffix_stripping.2.2.2.1 ⟨IpAddr.v4 167772161, 24⟩ (by decide) (by decide)⟩

/-- C7: an interface whose address list is exactly `[10.0.0.1/24]`, whose
private key is a given key, and whose every other field is unset, empty or
default renders exactly as the three-line string
`"[Interface]\nAddress = 10.0.0.1/24\nPrivateKey = <base64 of the key>\n"` —
no Table, MTU, DNS, hook, blank or peer lines, every line
newline-terminated. -/
theorem render_minimal_interface (pk : List Nat) :
    renderInterface
        { address := [⟨IpAddr.v4 167772161, 24⟩]
          listen_port := none
          private_key := ⟨pk⟩
          dns := []
          endpoint := none
          table := none
          mtu := none
          amnezia_settings := none
          pre_up := []
          pre_down := []
          post_up := []
          post_down := []
          peers := [] }
      = "[Interface]\nAddress = 10.0.0.1/24\nPrivateKey = " ++ b64_encode pk ++ "\n" := by
  have haddr : address_line [(⟨IpAddr.v4 167772161, 24⟩ : IpNet)] = "Address = 10.0.0.1/24\n" := by
    decide
  have hlit : ("[Interface]\n" : String) ++ "Address = 10.0.0.1/24\n" ++ "PrivateKey = "
      = "[Interface]\nAddress = 10.0.0.1/24\nPrivateKey = " := by decide
  show "[Interface]\n" ++ "" ++ address_line [⟨IpAddr.v4 167772161, 24⟩] ++ ""
      ++ "PrivateKey = " ++ b64_encode pk ++ "\n" ++ "" ++ "" ++ ""
      ++ "" ++ "" ++ "" ++ "" ++ "" ++ ""
    = "[Interface]\nAddress = 10.0.0.1/24\nPrivateKey = " ++ b64_encode pk ++ "\n"
  rw [haddr]
  simp only [String.append_empty, String.empty_append]
  rw [hlit]

/-- Witness for C7 at the key `cKey`, fully evaluated. -/
theorem render_minimal_interface_witness :
    renderInterface cServer
      = "[Interface]\nAddress = 10.0.0.1/24\nPrivateKey = AAECAwQFBgcICQoLDA0ODxAREhMUFRYXGBkaGxwdHh8=\n" :=
  (render_minimal_interface cBytes).trans (by decide)

/-! Helper lemmas about the base64 codec. -/

theorem b64Index_b64Char_fin : ∀ n : Fin 64, b64Index (b64Char n.val) = some n.val := by
  decide

theorem b64Index_b64Char_of_lt {n : Nat} (h : n < 64) : b64Index (b64Char n) = some n :=
  b64Index_b64Char_fin ⟨n, h⟩

theorem b64Char_ne_pad_fin : ∀ n : Fin 64, ¬ b64Char n.val = '=' := by decide

theorem b64Char_ne_pad {n : Nat} (h : n < 64) : ¬ b64Char n = '=' :=
  b64Char_ne_pad_fin ⟨n, h⟩

theorem b64_roundtrip_chunks :
    ∀ (bs : List Nat), (∀ b ∈ bs, b < 256) →
      b64DecodeChunks (b64EncodeChunks bs) = some bs
  | [], _ => rfl
  | [a], hb => by
    have ha : a < 256 := hb a (by simp)
    have h1 : b64Index (b64Char (a / 4)) = some (a / 4) :=
      b64Index_b64Char_of_lt (by omega)
    have h2 : b64Index (b64Char (a % 4 * 16)) = some (a % 4 * 16) :=
      b64Index_b64Char_of_lt (by omega)
    show b64DecodeChunks [b64Char (a / 4), b64Char (a % 4 * 16), '=', '='] = some [a]
    simp only [b64DecodeChunks, h1, h2, and_self, if_true]
    rw [if_pos (show a % 4 * 16 % 16 = 0 by omega)]
    rw [show a / 4 * 4 + a % 4 * 16 / 16 = a by omega]
  | [a, b], hb => by
    have ha : a < 256 := hb a (by simp)
    have hbb : b < 256 := hb b (by simp)
    have h1 : b64Index (b64Char (a / 4)) = some (a / 4) :=
      b64Index_b64Char_of_lt (by omega)
    have h2 : b64Index (b64Char (a % 4 * 16 + b / 16)) = some (a % 4 * 16 + b / 16) :=
      b64Index_b64Char_of_lt (by omega)
    have h3 : b64Index (b64Char (b % 16 * 4)) = some (b % 16 * 4) :=
      b64Index_b64Char_of_lt (by omega)
    show b64DecodeChunks
        [b64Char (a / 4), b64Char (a % 4 * 16 + b / 16), b64Char (b % 16 * 4), '='] = some [a, b]
    simp only [b64DecodeChunks, h1, h2, h3, and_self, if_true]
    rw [if_pos (show b % 16 * 4 % 4 = 0 by omega)]
    rw [show a / 4 * 4 + (a % 4 * 16 + b / 16) / 16 = a by omega]
    rw [show (a % 4 * 16 + b / 16) % 16 * 16 + b % 16 * 4 / 4 = b by omega]
    rw [if_neg (b64Char_ne_pad (show b % 16 * 4 < 64 by omega))]
  | a :: b :: c :: rest, hb => by
    have ha : a < 256 := hb a (by simp)
    have hbb : b < 256 := hb b (by simp)
    have hc : c < 256 := hb c (by simp)
    have ih := b64_roundtrip_chunks rest (fun x hx => hb x (by simp [hx]))
    have h1 : b64Index (b64Char (a / 4)) = some (a / 4) :=
      b64Index_b64Char_of_lt (by omega)
    have h2 : b64Index (b64Char (a % 4 * 16 + b / 16)) = some (a % 4 * 16 + b / 16) :=
      b64Index_b64Char_of_lt (by omega)
    have h3 : b64Index (b64Char (b % 16 * 4 + c / 64)) = some (b % 16 * 4 + c / 64) :=
      b64Index_b64Char_of_lt (by omega)
    have h4 : b64Index (b64Char (c % 64)) = some (c % 64) :=
      b64Index_b64Char_of_lt (by omega)
    show b64DecodeChunks
        (b64Char (a / 4) :: b64Char (a % 4 * 16 + b / 16) :: b64Char (b % 16 * 4 + c / 64)
          :: b64Char (c % 64) :: b64EncodeChunks rest) = some (a :: b :: c :: rest)
    simp only [b64DecodeChunks, h1, h2, h3, h4]
    rw [if_neg (b64Char_ne_pad (show b % 16 * 4 + c / 64 < 64 by omega)),
      if_neg (b64Char_ne_pad (show c % 64 < 64 by omega)), ih]
    simp only [Option.some.injEq, List.cons_append, List.nil_append, List.cons.injEq, and_true]
    exact ⟨by omega, by omega, by omega⟩

/-- C6: for each of the three key types, decoding the base64 text produced by
encoding any valid key yields the key back; and decoding a text fails (with
the type's own invalid-key error) exactly when the input is not
standard-alphabet base64 (here: strict base64 decoding fails) or its decoded
length is not 32 bytes. -/
theorem key_codec_roundtrip_and_failure (bs : List Nat) (hb : KeyBytes bs) :
    PrivateKey.try_from (PrivateKey.encode ⟨bs⟩) = .ok ⟨bs⟩ ∧
    PublicKey.try_from (PublicKey.encode ⟨bs⟩) = .ok ⟨bs⟩ ∧
    PresharedKey.try_from (PresharedKey.encode ⟨bs⟩) = .ok ⟨bs⟩ ∧
    (∀ s : String, PrivateKey.try_from s = .error .invalidPrivateKey ↔
        ¬ ∃ b, b64_decode s = some b ∧ b.length = 32) ∧
    (∀ s : String, PublicKey.try_from s = .error .invalidPublicKey ↔
        ¬ ∃ b, b64_decode s = some b ∧ b.length = 32) ∧
    (∀ s : String, PresharedKey.try_from s = .error .invalidPresharedKey ↔
        ¬ ∃ b, b64_decode s = some b ∧ b.length = 32) := by
  obtain ⟨hlen, hlt⟩ := hb
  have hrt : b64_decode (b64_encode bs) = some bs := b64_roundtrip_chunks bs hlt
  refine ⟨?_, ?_, ?_, ?_, ?_, ?_⟩
  · simp [PrivateKey.try_from, PrivateKey.encode, hrt, hlen]
  · simp [PublicKey.try_from, PublicKey.encode, hrt, hlen]
  · simp [PresharedKey.try_from, PresharedKey.encode, hrt, hlen]
  · intro s
    rcases hd : b64_decode s with _ | b
    · simp [PrivateKey.try_from, hd]
    · by_cases hl : b.length = 32 <;> simp [PrivateKey.try_from, hd, hl]
  · intro s
    rcases hd : b64_decode s with _ | b
    · simp [PublicKey.try_from, hd]
    · by_cases hl : b.length = 32 <;> simp [PublicKey.try_from, hd, hl]
  · intro s
    rcases hd : b64_decode s with _ | b
    · simp [PresharedKey.try_from, hd]
    · by_cases hl : b.length = 32 <;> simp [PresharedKey.try_from, hd, hl]

/-- Witness for C6 at the key bytes `0x00 .. 0x1f`. -/
theorem key_codec_roundtrip_and_failure_witness :
    KeyBytes cBytes ∧
    PrivateKey.try_from (PrivateKey.encode ⟨cBytes⟩) = .ok ⟨cBytes⟩ :=
  ⟨⟨by decide, by decide⟩,
    (key_codec_roundtrip_and_failure cBytes ⟨by decide, by decide⟩).1⟩

/-- C9 counterexample: a settings value with jmin = 100 and jmax = 50 whose
jc is out of range (9999, the value tests/amneziawg.rs's validate_jc test
uses) is reported as "Jc", not "Jmin": the claim's unconditional "for every
settings value with jmin=100 and jmax=50" fails. -/
theorem amnezia_jc_reported_before_jmin :
    cAmneziaJc.jmin = 100 ∧ cAmneziaJc.jmax = 50 ∧
    cAmneziaJc.validate = .error (.invalidAmneziaSetting "Jc") ∧
    cAmneziaJc.validate ≠ .error (.invalidAmneziaSetting "Jmin") := by
  decide

/-- C9 (amended): validation runs its checks in a fixed order and reports
only the first violated field, never accumulating: when the earlier jc check
passes, jmin = 100 with jmax = 50 yields `InvalidAmneziaSetting "Jmin"`;
when every earlier check passes, h1 = h2 (h3, h4 distinct) yields
`InvalidAmneziaSetting "H1/H2/H3/H4"`. -/
theorem amnezia_validate_first_failure (a : AmneziaSettings)
    (hjc : 1 ≤ a.jc ∧ a.jc ≤ 128) :
    (a.jmin = 100 → a.jmax = 50 →
        a.validate = .error (.invalidAmneziaSetting "Jmin")) ∧
    (a.jmin ≤ a.jmax → a.jmin < 1280 → a.jmax ≤ 1280 → a.s1 ≤ 1132 →
        a.s1 + 56 ≠ a.s2 → a.s2 ≤ 1188 → a.h1 = a.h2 → a.h3 ≠ a.h4 →
        a.validate = .error (.invalidAmneziaSetting "H1/H2/H3/H4")) := by
  constructor
  · intro hmin hmax
    unfold AmneziaSettings.validate
    rw [if_neg (by omega), if_pos (by omega)]
  · intro h1 h2 h3 h4 h5 h6 hh hne
    unfold AmneziaSettings.validate
    rw [if_neg (by omega), if_neg (by omega), if_neg (by omega), if_neg (by omega),
      if_neg (by omega), if_pos (Or.inl hh)]

/-- Witness for C9 at concrete settings with jc in range. -/
theorem amnezia_validate_first_failure_witness :
    (1 ≤ cAmneziaJmin.jc ∧ cAmneziaJmin.jc ≤ 128) ∧
    cAmneziaJmin.validate = .error (.invalidAmneziaSetting "Jmin") :=
  ⟨by decide,
    (amnezia_validate_first_failure cAmneziaJmin (by decide)).1 (by decide) (by decide)⟩

/-- C5: `Interface::to_peer` never fails (it is a total function) and copies
the endpoint, copies the address list verbatim into allowed_ips, wraps the
interface's private key as the private (Left) key variant, resets
persistent_keepalive to 0, leaves the preshared key absent, and — per the
spec-modelled field of `Interface.to_peer`, the source literal omitting it —
carries amnezia_settings through unchanged. -/
theorem to_peer_fields (i : Interface) :
    i.to_peer.endpoint = i.endpoint ∧
    i.to_peer.allowed_ips = i.address ∧
    i.to_peer.key = Sum.inl i.private_key ∧
    i.to_peer.persistent_keepalive = 0 ∧
    i.to_peer.preshared_key = none ∧
    i.to_peer.amnezia_settings = i.amnezia_settings :=
  ⟨rfl, rfl, rfl, rfl, rfl, rfl⟩

end WgConf
